import Mathlib

/-!
Shallow embedding of the Pollution-Dispersion-Simulator script
(`src/fluidSimulation.py`).  The script drives a phiflow solver: the
script itself fixes the domain, the boundary policies, the constants,
the `make_step` pipeline and the frame-recording loop; the numerical
kernels it calls (`advect.semi_lagrangian`, `diffuse.implicit`,
`fluid.make_incompressible`, grid sampling, `math.clip`) live in the
phiflow library and are modelled here from the specification's
component design (spec sections 4.1-4.6), using exact rational
arithmetic.  The grid has unit cell spacing (25 cells over a physical
extent of 25 per axis), so world coordinates and grid coordinates
coincide up to the per-sample-kind face/center offsets.
-/

namespace FluidSim

/-- Boundary-extrapolation policy: tagged variant over
Periodic / ZeroValue / BoundaryHold (spec section 3; code lines 12, 21, 24). -/
inductive BPolicy where
  | periodic
  | zeroValue
  | boundaryHold
deriving DecidableEq

/-- Grid resolution per axis: `domain = dict(x=25, y=25, ...)` (code line 12). -/
def resolution : ℕ := 25

/-- Physical domain extent per axis: `bounds=Box[0:25, 0:25]` (code line 12).
With 25 cells this gives unit cell spacing. -/
def domainSize : ℚ := 25

/-- Declared boundary condition of the shared domain:
`boundaries='periodic'` (code line 12). -/
def domainBoundaries : BPolicy := .periodic

/-- Timestep `dt = 0.05` (code line 15). -/
def dt : ℚ := 1/20

/-- Viscosity `0.01` (code line 16). -/
def viscosity : ℚ := 1/100

/-- Extrapolation declared on the velocity `StaggeredGrid`:
`extrapolation.PERIODIC` (code line 21). -/
def velocityExtrapolation : BPolicy := .periodic

/-- Extrapolation declared on the venom-density `CenteredGrid`:
`extrapolation.ZERO` (code line 24). -/
def densityExtrapolation : BPolicy := .zeroValue

/-- Source point x-coordinate `venom_source_x = 0.5` (code line 45). -/
def venom_source_x : ℚ := 1/2

/-- Source point y-coordinate `venom_source_y = 0.5` (code line 46). -/
def venom_source_y : ℚ := 1/2

/-- Velocity injection strength `0.1` (code line 49). -/
def venom_injection_strength_vel : ℚ := 1/10

/-- Density injection strength `0.5` (code line 50). -/
def venom_injection_strength_den : ℚ := 1/2

/-- Step budget of the module-level loop: `num_frames = 100` (code line 86). -/
def num_frames : ℕ := 100

/-- A centered scalar field: one rational sample per cell of an `N`-by-`N`
grid (spec section 3, ScalarField).  Sample `(i, j)` sits at world position
`(i + 1/2, j + 1/2)`. -/
abbrev CField (N : ℕ) := Fin N → Fin N → ℚ

/-- A staggered vector field (spec section 3, VectorField): the x-component
`u i j` is sampled at the vertical face `(i, j + 1/2)`, the y-component
`w i j` at the horizontal face `(i + 1/2, j)`.  On a periodic grid each
component has exactly `N` samples per axis. -/
structure SField (N : ℕ) where
  u : Fin N → Fin N → ℚ
  w : Fin N → Fin N → ℚ

/-- Wrap an integer index into `Fin N` modulo the resolution
(spec section 4.1: `Periodic` wraps indices modulo resolution). -/
def wrap (N : ℕ) [NeZero N] (i : ℤ) : Fin N :=
  ⟨(i % (N : ℤ)).toNat, by
    have hN : 0 < N := Nat.pos_of_ne_zero (NeZero.ne N)
    have h1 : 0 ≤ i % (N : ℤ) := Int.emod_nonneg i (by exact_mod_cast hN.ne')
    have h2 : i % (N : ℤ) < (N : ℤ) := Int.emod_lt_of_pos i (by exact_mod_cast hN)
    omega⟩

/-- Clamp an integer index to the nearest valid cell
(spec section 4.1: `BoundaryHold`). -/
def clampIdx (N : ℕ) [NeZero N] (i : ℤ) : Fin N :=
  ⟨(min (max i 0) ((N : ℤ) - 1)).toNat, by
    have hN : 0 < N := Nat.pos_of_ne_zero (NeZero.ne N)
    omega⟩

/-- Resolve a possibly out-of-range integer index pair to a sample value
through a boundary policy (spec section 4.1): `Periodic` wraps modulo the
resolution, `ZeroValue` returns 0 for any out-of-range neighbor,
`BoundaryHold` clamps to the nearest valid cell. -/
def resolve (N : ℕ) [NeZero N] (pol : BPolicy) (f : CField N) (i j : ℤ) : ℚ :=
  match pol with
  | .periodic => f (wrap N i) (wrap N j)
  | .zeroValue =>
      if h : (0 ≤ i ∧ i < (N : ℤ)) ∧ (0 ≤ j ∧ j < (N : ℤ)) then
        f ⟨i.toNat, by omega⟩ ⟨j.toNat, by omega⟩
      else 0
  | .boundaryHold => f (clampIdx N i) (clampIdx N j)

/-- Bilinear interpolation between the four grid samples surrounding the
grid-index-space position `(x, y)`; out-of-range neighbors are resolved by
the boundary policy before interpolation (spec section 4.1:
`sample(field, position)`).  Modelled from the spec: phiflow's grid
sampling is not part of the repository's source. -/
def sampleAux (N : ℕ) [NeZero N] (pol : BPolicy) (f : CField N) (x y : ℚ) : ℚ :=
  (1 - (x - ⌊x⌋)) * (1 - (y - ⌊y⌋)) * resolve N pol f ⌊x⌋ ⌊y⌋
  + (x - ⌊x⌋) * (1 - (y - ⌊y⌋)) * resolve N pol f (⌊x⌋ + 1) ⌊y⌋
  + (1 - (x - ⌊x⌋)) * (y - ⌊y⌋) * resolve N pol f ⌊x⌋ (⌊y⌋ + 1)
  + (x - ⌊x⌋) * (y - ⌊y⌋) * resolve N pol f (⌊x⌋ + 1) (⌊y⌋ + 1)

/-- Sample a grid of samples whose `(i, j)` sample sits at world position
`(i + ox, j + oy)` at an arbitrary continuous world position `p`
(centered grids: `ox = oy = 1/2`; staggered x-component: `ox = 0, oy = 1/2`;
staggered y-component: `ox = 1/2, oy = 0`). -/
def sampleBil (N : ℕ) [NeZero N] (pol : BPolicy) (ox oy : ℚ) (f : CField N)
    (p : ℚ × ℚ) : ℚ :=
  sampleAux N pol f (p.1 - ox) (p.2 - oy)

/-- Sample the x-component of a staggered velocity field at a continuous
position, with the velocity field's declared periodic extrapolation. -/
def sampleU (N : ℕ) [NeZero N] (v : SField N) (p : ℚ × ℚ) : ℚ :=
  sampleBil N velocityExtrapolation 0 (1/2) v.u p

/-- Sample the y-component of a staggered velocity field at a continuous
position, with the velocity field's declared periodic extrapolation. -/
def sampleW (N : ℕ) [NeZero N] (v : SField N) (p : ℚ × ℚ) : ℚ :=
  sampleBil N velocityExtrapolation (1/2) 0 v.w p

/-- Sample the full velocity vector at a continuous position. -/
def sampleVel (N : ℕ) [NeZero N] (v : SField N) (p : ℚ × ℚ) : ℚ × ℚ :=
  (sampleU N v p, sampleW N v p)

/-- Semi-Lagrangian backtracing (spec section 4.2): from a sample position
`p`, step backwards along the velocity sampled at `p` by `-dt`. -/
def backtrace (N : ℕ) [NeZero N] (vel : SField N) (p : ℚ × ℚ) : ℚ × ℚ :=
  (p.1 - dt * (sampleVel N vel p).1, p.2 - dt * (sampleVel N vel p).2)

/-- Semi-Lagrangian advection of the centered density field through a
velocity field: each cell-center sample is replaced by the input field
bilinearly sampled at the backtraced position, resolved through the
density field's own (ZeroValue) boundary policy (spec section 4.2;
code line 55 `advect.semi_lagrangian(d, v, dt=dt)`).  Modelled from the
spec: the advector implementation is phiflow library code. -/
def advectC (N : ℕ) [NeZero N] (d : CField N) (vel : SField N) : CField N :=
  fun i j =>
    sampleBil N densityExtrapolation (1/2) (1/2) d
      (backtrace N vel ((i.val : ℚ) + 1/2, (j.val : ℚ) + 1/2))

/-- Semi-Lagrangian advection of a staggered velocity field through a
velocity field: each face sample is replaced by the corresponding
component of the input field sampled at the backtraced face position,
with the velocity field's periodic boundary policy (spec section 4.2;
code line 54 `advect.semi_lagrangian(v, v, dt=dt)`).  Modelled from the
spec: the advector implementation is phiflow library code. -/
def advectS (N : ℕ) [NeZero N] (f : SField N) (vel : SField N) : SField N :=
  ⟨fun i j =>
      sampleBil N velocityExtrapolation 0 (1/2) f.u
        (backtrace N vel ((i.val : ℚ), (j.val : ℚ) + 1/2)),
   fun i j =>
      sampleBil N velocityExtrapolation (1/2) 0 f.w
        (backtrace N vel ((i.val : ℚ) + 1/2, (j.val : ℚ)))⟩

/-- Diffusion coefficient `viscosity * dt / spacing^2` with unit spacing. -/
def alphaDiff : ℚ := viscosity * dt

/-- One Jacobi relaxation sweep for the implicit diffusion system
`(I - viscosity*dt*Laplacian) g = rhs` on a periodic grid of per-component
samples (spec section 4.3, implicit diffusion via iterative relaxation;
double-buffered: the sweep reads only the previous iterate). -/
def jacobiDiffStep (N : ℕ) [NeZero N] (rhs g : Fin N → Fin N → ℚ) :
    Fin N → Fin N → ℚ :=
  fun i j =>
    (rhs i j + alphaDiff *
      (g (wrap N ((i.val : ℤ) + 1)) j + g (wrap N ((i.val : ℤ) - 1)) j
        + g i (wrap N ((j.val : ℤ) + 1)) + g i (wrap N ((j.val : ℤ) - 1))))
    / (1 + 4 * alphaDiff)

/-- `k` Jacobi sweeps for implicit diffusion, warm-started at the input. -/
def jacobiDiffIter (N : ℕ) [NeZero N] (k : ℕ) (rhs : Fin N → Fin N → ℚ) :
    Fin N → Fin N → ℚ :=
  (jacobiDiffStep N rhs)^[k] rhs

/-- Implicit viscous diffusion of a staggered velocity field, component by
component, using `k` relaxation sweeps (spec section 4.3; code line 58
`diffuse.implicit(v, viscosity, dt=dt)`).  Modelled from the spec: the
solver lives in the phiflow library; its iteration cap is a library
configuration, kept here as the parameter `k`. -/
def diffuseS (N : ℕ) [NeZero N] (k : ℕ) (v : SField N) : SField N :=
  ⟨jacobiDiffIter N k v.u, jacobiDiffIter N k v.w⟩

/-- Discrete per-cell divergence of a staggered velocity field at integer
cell index `(i, j)` (unit spacing, periodic wrap): the net outflow
`u(i+1,j) - u(i,j) + w(i,j+1) - w(i,j)` (spec section 4.4). -/
def divS (N : ℕ) [NeZero N] (v : SField N) (i j : ℤ) : ℚ :=
  v.u (wrap N (i + 1)) (wrap N j) - v.u (wrap N i) (wrap N j)
  + v.w (wrap N i) (wrap N (j + 1)) - v.w (wrap N i) (wrap N j)

/-- The divergence of a staggered field as a centered field. -/
def divC (N : ℕ) [NeZero N] (v : SField N) : CField N :=
  fun i j => divS N v (i.val : ℤ) (j.val : ℤ)

/-- Discrete five-point Laplacian of a centered field at integer cell
index `(i, j)` (unit spacing, periodic wrap). -/
def lap (N : ℕ) [NeZero N] (p : CField N) (i j : ℤ) : ℚ :=
  p (wrap N (i + 1)) (wrap N j) + p (wrap N (i - 1)) (wrap N j)
  + p (wrap N i) (wrap N (j + 1)) + p (wrap N i) (wrap N (j - 1))
  - 4 * p (wrap N i) (wrap N j)

/-- Subtract the discrete pressure gradient from a staggered velocity
field at each face (spec section 4.4): the x-face `(i, j)` loses
`p(i,j) - p(i-1,j)`, the y-face `(i, j)` loses `p(i,j) - p(i,j-1)`. -/
def subGrad (N : ℕ) [NeZero N] (v : SField N) (p : CField N) : SField N :=
  ⟨fun i j => v.u i j - (p i j - p (wrap N ((i.val : ℤ) - 1)) j),
   fun i j => v.w i j - (p i j - p i (wrap N ((j.val : ℤ) - 1)))⟩

/-- One Jacobi relaxation sweep for the pressure Poisson equation
`Laplacian(pressure) = divergence` (spec section 4.4, same iterative
solver family as implicit diffusion). -/
def jacobiPoisStep (N : ℕ) [NeZero N] (b p : CField N) : CField N :=
  fun i j =>
    (p (wrap N ((i.val : ℤ) + 1)) j + p (wrap N ((i.val : ℤ) - 1)) j
      + p i (wrap N ((j.val : ℤ) + 1)) + p i (wrap N ((j.val : ℤ) - 1))
      - b i j) / 4

/-- `k` Jacobi sweeps for the pressure Poisson equation, from a zero
initial pressure guess. -/
def jacobiPois (N : ℕ) [NeZero N] (k : ℕ) (b : CField N) : CField N :=
  (jacobiPoisStep N b)^[k] (fun _ _ => 0)

/-- Incompressibility projection (spec section 4.4; code line 63
`fluid.make_incompressible(v)`): compute the divergence, solve the
pressure Poisson equation with `k` relaxation sweeps, and subtract the
discrete pressure gradient from the velocity.  Modelled from the spec:
the projector lives in the phiflow library; its iteration cap is a
library configuration, kept here as the parameter `k`. -/
def projectJ (N : ℕ) [NeZero N] (k : ℕ) (v : SField N) : SField N :=
  subGrad N v (jacobiPois N k (divC N v))

/-- Configured residual tolerance of the pressure solve.  Modelled from
the spec: the spec's example tolerance is `1e-4` (spec section 8); the
actual value is phiflow solver configuration absent from the source. -/
def projTol : ℚ := 1/10000

/-- Contract of `fluid.make_incompressible` (spec section 4.4), modelled
from the spec because the projector's code is phiflow library code:
`v'` arises from `v` by subtracting the discrete gradient of a pressure
field whose Poisson residual `Laplacian(p) - divergence(v)` is below the
configured tolerance at every cell (the post-call invariant the spec
asserts for a completed solve). -/
def ProjectSpec (N : ℕ) [NeZero N] (v v' : SField N) : Prop :=
  ∃ p : CField N, v' = subGrad N v p ∧
    ∀ i j : Fin N, |lap N p (i.val : ℤ) (j.val : ℤ) - divS N v (i.val : ℤ) (j.val : ℤ)| < projTol

/-- The maximum absolute per-cell divergence of a staggered velocity
field over all cells of the grid. -/
def maxAbsDiv (N : ℕ) [NeZero N] (v : SField N) : ℚ :=
  Finset.univ.sup'
    (Finset.univ_nonempty (α := Fin N × Fin N))
    (fun c => |divS N v (c.1.val : ℤ) (c.2.val : ℤ)|)

/-- Nearest-sample index resolution (spec sections 4.5 and 9: the
point-based `at[]` add is an explicit nearest-cell-index resolution):
for samples sitting at world coordinate `i + off`, the sample nearest
world coordinate `x`. -/
def nearestIdx (off x : ℚ) : ℤ := ⌊x - off + 1/2⌋

/-- Cell index (x) of the density sample nearest the source point. -/
def denSrcI : ℤ := nearestIdx (1/2) venom_source_x

/-- Cell index (y) of the density sample nearest the source point. -/
def denSrcJ : ℤ := nearestIdx (1/2) venom_source_y

/-- Face index (x) of the u-velocity sample nearest the source point. -/
def uSrcI : ℤ := nearestIdx 0 venom_source_x

/-- Face index (y) of the u-velocity sample nearest the source point. -/
def uSrcJ : ℤ := nearestIdx (1/2) venom_source_y

/-- Face index (x) of the w-velocity sample nearest the source point. -/
def wSrcI : ℤ := nearestIdx (1/2) venom_source_x

/-- Face index (y) of the w-velocity sample nearest the source point. -/
def wSrcJ : ℤ := nearestIdx 0 venom_source_y

/-- Source injection into the velocity field (code line 73:
`v.at[venom_source_x, venom_source_y].add((strength, strength))`): adds
the fixed offset to the velocity samples nearest the source point,
leaving every other sample unchanged (spec section 4.5). -/
def injectV (N : ℕ) [NeZero N] (v : SField N) : SField N :=
  ⟨fun i j =>
      if i = wrap N uSrcI ∧ j = wrap N uSrcJ then
        v.u i j + venom_injection_strength_vel
      else v.u i j,
   fun i j =>
      if i = wrap N wSrcI ∧ j = wrap N wSrcJ then
        v.w i j + venom_injection_strength_vel
      else v.w i j⟩

/-- Source injection into the density field (code line 76:
`d.at[venom_source_x, venom_source_y].add(strength)`): adds the scalar
increment `s` to the density sample nearest the source point (spec
section 4.5).  The strength is a parameter so that the clamp property
can be stated for arbitrary strengths; the script passes the constant
`venom_injection_strength_den`. -/
def injectD (N : ℕ) [NeZero N] (s : ℚ) (d : CField N) : CField N :=
  fun i j =>
    if i = wrap N denSrcI ∧ j = wrap N denSrcJ then d i j + s else d i j

/-- `math.clip(d, 0, 1)` (code line 78): clamp every density sample into
`[0, 1]`. -/
def clip01 (N : ℕ) (d : CField N) : CField N :=
  fun i j => max 0 (min 1 (d i j))

/-- A simulation state: one staggered velocity field and one centered
density field (spec section 3, SimulationState). -/
abbrev SimState (N : ℕ) := SField N × CField N

/-- The `make_step` pipeline (code lines 53-79) with the two library
solvers abstracted as function parameters: advect velocity by itself,
advect density by the already-advected velocity, diffuse velocity,
project velocity, inject the source into velocity and into density, then
clamp the density into `[0, 1]`. -/
def makeStepWith (N : ℕ) [NeZero N] (ds ps : SField N → SField N)
    (s : SimState N) : SimState N :=
  (injectV N (ps (ds (advectS N s.1 s.1))),
   clip01 N (injectD N venom_injection_strength_den
     (advectC N s.2 (advectS N s.1 s.1))))

/-- `make_step` (code lines 53-79) with the modelled Jacobi solvers:
`kd` diffusion sweeps and `kp` pressure sweeps stand in for the phiflow
solvers' iteration caps. -/
def makeStep (N : ℕ) [NeZero N] (kd kp : ℕ) (s : SimState N) : SimState N :=
  makeStepWith N (diffuseS N kd) (projectJ N kp) s

/-- A solver that reports, alongside its best iterate, whether it reached
its residual tolerance within the iteration cap (spec sections 4.3 and 7,
ConvergenceWarning).  Modelled from the spec: the phiflow solvers'
convergence reporting is library-internal. -/
abbrev FlaggedSolver (N : ℕ) := SField N → SField N × Bool

/-- The `make_step` pipeline driven by flagged solvers: as in the source,
only the solvers' field outputs enter the step result (the calls on code
lines 58 and 63 bind a field, nothing else). -/
def makeStepFlag (N : ℕ) [NeZero N] (dsf psf : FlaggedSolver N)
    (s : SimState N) : SimState N :=
  makeStepWith N (fun v => (dsf v).1) (fun v => (psf v).1) s

/-- The convergence status of the two solves performed by one step: true
iff the diffusion solve or the pressure solve failed to converge (spec
section 7: ConvergenceWarning accumulated per step). -/
def runFlags (N : ℕ) [NeZero N] (dsf psf : FlaggedSolver N)
    (s : SimState N) : Bool :=
  (dsf (advectS N s.1 s.1)).2 || (psf ((dsf (advectS N s.1 s.1)).1)).2

/-- The claim that convergence status is surfaced on the step result: a
reader `rf` of step results that recovers, for every pair of flagged
solvers and every input state, the convergence status of the solves the
step performed. -/
def SurfacesFlag (N : ℕ) [NeZero N] (rf : SimState N → Bool) : Prop :=
  ∀ (dsf psf : FlaggedSolver N) (s : SimState N),
    rf (makeStepFlag N dsf psf s) = runFlags N dsf psf s

/-- The initial velocity field (code lines 19-21): the Taylor-Green
initializer `(sin(2*pi*y), cos(2*pi*x))` evaluated at the staggered
sample points.  With unit spacing the u-samples sit at `y = j + 1/2`
where `sin(2*pi*(j + 1/2)) = 0`, and the w-samples sit at `x = i + 1/2`
where `cos(2*pi*(i + 1/2)) = -1`, so the stored samples are exactly
`u = 0` and `w = -1`. -/
def initVelocity (N : ℕ) : SField N := ⟨fun _ _ => 0, fun _ _ => -1⟩

/-- The initial venom density field: `CenteredGrid(0, ...)` (code line 24). -/
def initDensity (N : ℕ) : CField N := fun _ _ => 0

/-- The initial simulation state (code lines 19-24, 82-83). -/
def initState (N : ℕ) : SimState N := (initVelocity N, initDensity N)

/-- The state after `n` iterations of the module-level stepping loop
(code lines 87-88): the loop-carried `(velocity, venom_density)` pair. -/
def run (N : ℕ) [NeZero N] (kd kp : ℕ) : ℕ → SimState N
  | 0 => initState N
  | n + 1 => makeStep N kd kp (run N kd kp n)

/-- The frame history after `n` loop iterations (code lines 82-90):
initialized with the initial state, and extended by appending each
step's result. -/
def frames (N : ℕ) [NeZero N] (kd kp : ℕ) : ℕ → List (SimState N)
  | 0 => [initState N]
  | n + 1 => frames N kd kp n ++ [makeStep N kd kp (run N kd kp n)]

/-- The body of the module-level stepping loop (code lines 87-90) as a
function of the loop index `i` and the loop-carried state: the index is
used only for progress printing and does not enter the computation. -/
def loopBody (N : ℕ) [NeZero N] (kd kp : ℕ) (i : ℕ) (s : SimState N) :
    SimState N :=
  makeStep N kd kp s

/-! Helper lemmas about index wrapping, sampling and the frame history. -/

theorem wrap_congr (N : ℕ) [NeZero N] {i j : ℤ} (h : i % (N : ℤ) = j % (N : ℤ)) :
    wrap N i = wrap N j := by
  apply Fin.ext
  simp only [wrap]
  exact congrArg Int.toNat h

theorem wrap_add_natCast (N : ℕ) [NeZero N] (i : ℤ) :
    wrap N (i + (N : ℤ)) = wrap N i := by
  apply wrap_congr
  simpa using Int.add_mul_emod_self_left (a := i) (b := (N : ℤ)) (c := 1)

theorem wrap_val_add (N : ℕ) [NeZero N] (a b : ℤ) :
    wrap N (((wrap N a).val : ℤ) + b) = wrap N (a + b) := by
  apply wrap_congr
  have hval : (((wrap N a).val : ℤ)) = a % (N : ℤ) := by
    simp only [wrap]
    exact Int.toNat_of_nonneg (Int.emod_nonneg a
      (by exact_mod_cast (Nat.pos_of_ne_zero (NeZero.ne N)).ne'))
  rw [hval]
  exact Int.emod_add_emod a (N : ℤ) b

theorem resolve_zero_field (N : ℕ) [NeZero N] (pol : BPolicy) (i j : ℤ) :
    resolve N pol (fun _ _ => 0) i j = 0 := by
  cases pol <;> simp [resolve]

theorem sampleAux_zero_field (N : ℕ) [NeZero N] (pol : BPolicy) (x y : ℚ) :
    sampleAux N pol (fun _ _ => 0) x y = 0 := by
  simp [sampleAux, resolve_zero_field]

theorem advectC_zero (N : ℕ) [NeZero N] (vel : SField N) :
    advectC N (fun _ _ => 0) vel = fun _ _ => 0 := by
  funext i j
  simp [advectC, sampleBil, sampleAux_zero_field]

theorem sampleAux_periodic_shiftX (N : ℕ) [NeZero N] (f : CField N) (x y : ℚ) :
    sampleAux N .periodic f (x + (N : ℚ)) y = sampleAux N .periodic f x y := by
  have hfl : ⌊x + (N : ℚ)⌋ = ⌊x⌋ + (N : ℤ) := by exact_mod_cast Int.floor_add_nat x N
  have h2 : ⌊x⌋ + (N : ℤ) + 1 = ⌊x⌋ + 1 + (N : ℤ) := by ring
  simp only [sampleAux, resolve, hfl, h2, wrap_add_natCast]
  push_cast
  ring

theorem sampleAux_periodic_shiftY (N : ℕ) [NeZero N] (f : CField N) (x y : ℚ) :
    sampleAux N .periodic f x (y + (N : ℚ)) = sampleAux N .periodic f x y := by
  have hfl : ⌊y + (N : ℚ)⌋ = ⌊y⌋ + (N : ℤ) := by exact_mod_cast Int.floor_add_nat y N
  have h2 : ⌊y⌋ + (N : ℤ) + 1 = ⌊y⌋ + 1 + (N : ℤ) := by ring
  simp only [sampleAux, resolve, hfl, h2, wrap_add_natCast]
  push_cast
  ring

theorem frames_length (N : ℕ) [NeZero N] (kd kp : ℕ) (n : ℕ) :
    (frames N kd kp n).length = n + 1 := by
  induction n with
  | zero => rfl
  | succ n ih => simp [frames, ih]

theorem frames_getElem (N : ℕ) [NeZero N] (kd kp : ℕ) (n k : ℕ) (h : k ≤ n) :
    (frames N kd kp n)[k]? = some (run N kd kp k) := by
  induction n with
  | zero =>
      have hk : k = 0 := Nat.le_zero.mp h
      subst hk
      rfl
  | succ n ih =>
      rw [frames, List.getElem?_append]
      rcases Nat.lt_or_ge k (n + 1) with h1 | h1
      · rw [if_pos (by rw [frames_length]; exact h1)]
        exact ih (Nat.lt_succ_iff.mp h1)
      · have hk : k = n + 1 := le_antisymm h h1
        subst hk
        rw [if_neg (by rw [frames_length]; omega), frames_length]
        simp [run]

theorem frames_head (N : ℕ) [NeZero N] (kd kp : ℕ) (n : ℕ) :
    (frames N kd kp n).head? = some (initState N) := by
  rw [List.head?_eq_getElem?]
  exact frames_getElem N kd kp n 0 (Nat.zero_le n)

theorem makeStep_ne_init (N : ℕ) [NeZero N] (kd kp : ℕ) :
    makeStep N kd kp (initState N) ≠ initState N := by
  intro h
  have h2 := congrArg (fun s : SimState N => s.2 (wrap N 0) (wrap N 0)) h
  have hzero : advectC N (initDensity N) (advectS N (initVelocity N) (initVelocity N))
      = fun _ _ => 0 := advectC_zero N _
  have hsrc : wrap N denSrcI = wrap N 0 ∧ wrap N denSrcJ = wrap N 0 := by
    constructor <;> · apply wrap_congr; norm_num [denSrcI, denSrcJ, nearestIdx,
      venom_source_x, venom_source_y]
  simp only [makeStep, makeStepWith, initState, clip01, injectD, hzero] at h2
  rw [if_pos ⟨hsrc.1.symm, hsrc.2.symm⟩] at h2
  norm_num [initDensity, venom_injection_strength_den] at h2

/-! Claim theorems. -/

/-- C2: for every input density field and every (possibly negative or
arbitrarily large) density injection strength, after the injection step
(nearest-sample increment followed by the `math.clip(d, 0, 1)` of code
line 78) every sample of the returned density field lies in `[0, 1]`. -/
theorem inject_density_clamped (N : ℕ) [NeZero N] (d : CField N) (s : ℚ)
    (i j : Fin N) :
    0 ≤ clip01 N (injectD N s d) i j ∧ clip01 N (injectD N s d) i j ≤ 1 := by
  unfold clip01
  exact ⟨le_max_left 0 _, max_le zero_le_one (min_le_left 1 _)⟩

/-- Witness for C2 at a concrete field and a negative strength. -/
theorem inject_density_clamped_witness :
    0 ≤ clip01 25 (injectD 25 (-5) (initDensity 25)) 0 0
    ∧ clip01 25 (injectD 25 (-5) (initDensity 25)) 0 0 ≤ 1 :=
  inject_density_clamped 25 (initDensity 25) (-5) 0 0

/-- C5: for every field sampled with the Periodic boundary policy (at any
face/center offset) and every continuous position, translating the
position by one full domain period along either axis leaves the sampled
value unchanged; for this program the domain size equals the resolution
because the cell spacing is 1. -/
theorem periodic_sample_shift (N : ℕ) [NeZero N] (ox oy : ℚ) (f : CField N)
    (p : ℚ × ℚ) :
    domainSize = ((resolution : ℕ) : ℚ)
    ∧ sampleBil N .periodic ox oy f (p.1 + (N : ℚ), p.2)
        = sampleBil N .periodic ox oy f p
    ∧ sampleBil N .periodic ox oy f (p.1, p.2 + (N : ℚ))
        = sampleBil N .periodic ox oy f p := by
  refine ⟨rfl, ?_, ?_⟩
  · show sampleAux N .periodic f (p.1 + (N : ℚ) - ox) (p.2 - oy)
      = sampleAux N .periodic f (p.1 - ox) (p.2 - oy)
    rw [show p.1 + (N : ℚ) - ox = (p.1 - ox) + (N : ℚ) by ring]
    exact sampleAux_periodic_shiftX N f (p.1 - ox) (p.2 - oy)
  · show sampleAux N .periodic f (p.1 - ox) (p.2 + (N : ℚ) - oy)
      = sampleAux N .periodic f (p.1 - ox) (p.2 - oy)
    rw [show p.2 + (N : ℚ) - oy = (p.2 - oy) + (N : ℚ) by ring]
    exact sampleAux_periodic_shiftY N f (p.1 - ox) (p.2 - oy)

/-- Witness for C5 at a concrete field, offset and position on the
program's 25-cell periodic grid. -/
theorem periodic_sample_shift_witness :
    domainSize = ((resolution : ℕ) : ℚ)
    ∧ sampleBil 25 .periodic 0 (1/2) (fun i j => (i.val : ℚ) + 2 * (j.val : ℚ))
        ((3/4 : ℚ) + ((25 : ℕ) : ℚ), (1/3 : ℚ))
        = sampleBil 25 .periodic 0 (1/2) (fun i j => (i.val : ℚ) + 2 * (j.val : ℚ))
          (3/4, 1/3)
    ∧ sampleBil 25 .periodic 0 (1/2) (fun i j => (i.val : ℚ) + 2 * (j.val : ℚ))
        ((3/4 : ℚ), (1/3 : ℚ) + ((25 : ℕ) : ℚ))
        = sampleBil 25 .periodic 0 (1/2) (fun i j => (i.val : ℚ) + 2 * (j.val : ℚ))
          (3/4, 1/3) :=
  periodic_sample_shift 25 0 (1/2) (fun i j => (i.val : ℚ) + 2 * (j.val : ℚ))
    (3/4, 1/3)

/-- C10: the density field's boundary policy is ZeroValue while the
velocity field's is Periodic, even though the shared domain is declared
periodic; a ZeroValue resolution returns 0 for every out-of-range
neighbor instead of wrapping, and on the same grid the two policies give
genuinely different sampled values (shown at a concrete out-of-domain
position where the zero-fill sampler sees a zero neighbor). -/
theorem density_velocity_policies_differ :
    (domainBoundaries = BPolicy.periodic
      ∧ velocityExtrapolation = BPolicy.periodic
      ∧ densityExtrapolation = BPolicy.zeroValue)
    ∧ (∀ (N : ℕ) (inst : NeZero N) (f : CField N) (i j : ℤ),
        ¬((0 ≤ i ∧ i < (N : ℤ)) ∧ (0 ≤ j ∧ j < (N : ℤ))) →
        resolve N BPolicy.zeroValue f i j = 0)
    ∧ sampleBil 2 densityExtrapolation (1/2) (1/2) (fun _ _ => 1) (0, 1/2)
        ≠ sampleBil 2 BPolicy.periodic (1/2) (1/2) (fun _ _ => 1) (0, 1/2) := by
  refine ⟨⟨rfl, rfl, rfl⟩, ?_, ?_⟩
  · intro N inst f i j h
    simp only [resolve]
    exact dif_neg h
  · have hfl1 : ⌊(0 : ℚ) - 1/2⌋ = -1 := by norm_num
    have hfl2 : ⌊(1/2 : ℚ) - 1/2⌋ = 0 := by norm_num
    simp only [densityExtrapolation, sampleBil, sampleAux, resolve]
    norm_num [hfl1, hfl2, wrap]

/-- Witness for C10's zero-fill conjunct at a concrete out-of-range index. -/
theorem density_velocity_policies_differ_witness :
    resolve 2 BPolicy.zeroValue (fun _ _ => 1) (-1) 0 = 0 :=
  density_velocity_policies_differ.2.1 2 ⟨by decide⟩ (fun _ _ => 1) (-1) 0
    (by decide)

theorem wrap_val_sub_one (N : ℕ) [NeZero N] (a : ℤ) :
    wrap N (((wrap N a).val : ℤ) - 1) = wrap N (a - 1) := by
  have h := wrap_val_add N a (-1)
  simpa [sub_eq_add_neg] using h

theorem divS_subGrad (N : ℕ) [NeZero N] (v : SField N) (p : CField N)
    (i j : ℤ) :
    divS N (subGrad N v p) i j = divS N v i j - lap N p i j := by
  simp only [divS, subGrad, lap, wrap_val_sub_one]
  rw [show i + 1 - 1 = i by ring, show j + 1 - 1 = j by ring]
  ring

/-- C3: for every (finite, here: rational) velocity field given to the
incompressibility projection, the returned field has the same grid and
staggered layout (enforced by its type `SField N`), and its maximum
absolute per-cell divergence is below the configured solver tolerance.
The projection contract `ProjectSpec` is modelled from the spec (the
solver is phiflow library code): the output subtracts the discrete
gradient of a pressure whose Poisson residual is below the tolerance at
every cell, and the discrete identity
`div(v - grad p) = div v - Laplacian p` transfers that residual bound to
the output divergence. -/
theorem project_divergence_below_tol (N : ℕ) [NeZero N] (v v' : SField N)
    (h : ProjectSpec N v v') : maxAbsDiv N v' < projTol := by
  obtain ⟨p, hv', hres⟩ := h
  subst hv'
  rw [maxAbsDiv, Finset.sup'_lt_iff]
  intro c _
  rw [divS_subGrad]
  have hc := hres c.1 c.2
  rw [abs_sub_comm] at hc
  exact hc

/-- Witness for C3 at the zero velocity field with the zero pressure. -/
theorem project_divergence_below_tol_witness :
    ProjectSpec 2 ⟨fun _ _ => 0, fun _ _ => 0⟩ ⟨fun _ _ => 0, fun _ _ => 0⟩
    ∧ maxAbsDiv 2 ⟨fun _ _ => 0, fun _ _ => 0⟩ < projTol := by
  have hspec : ProjectSpec 2 ⟨fun _ _ => 0, fun _ _ => 0⟩
      ⟨fun _ _ => 0, fun _ _ => 0⟩ := by
    refine ⟨fun _ _ => 0, ?_, ?_⟩
    · simp only [subGrad]
      norm_num
    · intro i j
      norm_num [lap, divS, projTol]
  exact ⟨hspec, project_divergence_below_tol 2 _ _ hspec⟩

/-- C1: every step applies exactly this fixed sequence to the state
`(v, d)`: advect velocity by itself, advect density by the
already-advected velocity, diffuse velocity, project velocity, inject
the source into velocity and density (the density injection followed by
the clamp); and the module-level loop appends the resulting pair to the
frame history as the new state. -/
theorem step_sequence (N : ℕ) [NeZero N] (kd kp : ℕ) (v : SField N)
    (d : CField N) (n : ℕ) :
    makeStep N kd kp (v, d)
      = (injectV N (projectJ N kp (diffuseS N kd (advectS N v v))),
         clip01 N (injectD N venom_injection_strength_den
           (advectC N d (advectS N v v))))
    ∧ frames N kd kp (n + 1)
        = frames N kd kp n ++ [makeStep N kd kp (run N kd kp n)] :=
  ⟨rfl, rfl⟩

/-- Witness for C1 at a concrete state on a 2-cell grid. -/
theorem step_sequence_witness :
    makeStep 2 1 1 (initVelocity 2, initDensity 2)
      = (injectV 2 (projectJ 2 1 (diffuseS 2 1 (advectS 2 (initVelocity 2) (initVelocity 2)))),
         clip01 2 (injectD 2 venom_injection_strength_den
           (advectC 2 (initDensity 2) (advectS 2 (initVelocity 2) (initVelocity 2)))))
    ∧ frames 2 1 1 1 = frames 2 1 1 0 ++ [makeStep 2 1 1 (run 2 1 1 0)] :=
  step_sequence 2 1 1 (initVelocity 2) (initDensity 2) 0

/-- C4: the clamp after source injection touches only the density field:
the velocity returned by the step is exactly the projected velocity with
the fixed injection offset added at the source faces, and every other
velocity sample is returned unchanged — no clamp or magnitude limit is
applied to any velocity sample. -/
theorem velocity_never_clamped (N : ℕ) [NeZero N] (kd kp : ℕ) (v : SField N)
    (d : CField N) (i j : Fin N) :
    (makeStep N kd kp (v, d)).1
      = injectV N (projectJ N kp (diffuseS N kd (advectS N v v)))
    ∧ (∀ V : SField N,
        (injectV N V).u i j
          = V.u i j + (if i = wrap N uSrcI ∧ j = wrap N uSrcJ then
              venom_injection_strength_vel else 0)
        ∧ (injectV N V).w i j
          = V.w i j + (if i = wrap N wSrcI ∧ j = wrap N wSrcJ then
              venom_injection_strength_vel else 0)) := by
  refine ⟨rfl, fun V => ⟨?_, ?_⟩⟩ <;>
  · simp only [injectV]
    split_ifs with h
    · rfl
    · ring

/-- Witness for C4 at a concrete state and sample index. -/
theorem velocity_never_clamped_witness :
    (makeStep 2 1 1 (initVelocity 2, initDensity 2)).1
      = injectV 2 (projectJ 2 1 (diffuseS 2 1 (advectS 2 (initVelocity 2) (initVelocity 2))))
    ∧ (∀ V : SField 2,
        (injectV 2 V).u 0 0
          = V.u 0 0 + (if (0 : Fin 2) = wrap 2 uSrcI ∧ (0 : Fin 2) = wrap 2 uSrcJ then
              venom_injection_strength_vel else 0)
        ∧ (injectV 2 V).w 0 0
          = V.w 0 0 + (if (0 : Fin 2) = wrap 2 wSrcI ∧ (0 : Fin 2) = wrap 2 wSrcJ then
              venom_injection_strength_vel else 0)) :=
  velocity_never_clamped 2 1 1 (initVelocity 2) (initDensity 2) 0 0

/-- C6: the frame history is an ordered, append-only sequence with
exactly one snapshot per step plus the initial state: after `n` steps it
has length `n + 1`, its first element is the initial state, its `k`-th
element is the `k`-th loop-carried state (the result of the `k`-th step,
since `run (m+1)` is the step applied to `run m`), and each loop
iteration only appends — the previous history is a prefix of the next,
so no earlier snapshot is removed, and snapshots are immutable values. -/
theorem frame_history (N : ℕ) [NeZero N] (kd kp n k m : ℕ) (hk : k ≤ n) :
    (frames N kd kp n).length = n + 1
    ∧ (frames N kd kp n).head? = some (initState N)
    ∧ (frames N kd kp n)[k]? = some (run N kd kp k)
    ∧ run N kd kp (m + 1) = makeStep N kd kp (run N kd kp m)
    ∧ frames N kd kp n <+: frames N kd kp (n + 1) :=
  ⟨frames_length N kd kp n, frames_head N kd kp n,
   frames_getElem N kd kp n k hk, rfl, List.prefix_append _ _⟩

/-- Witness for C6 after one step on a 2-cell grid. -/
theorem frame_history_witness :
    (frames 2 1 1 1).length = 1 + 1
    ∧ (frames 2 1 1 1).head? = some (initState 2)
    ∧ (frames 2 1 1 1)[1]? = some (run 2 1 1 1)
    ∧ run 2 1 1 1 = makeStep 2 1 1 (run 2 1 1 0)
    ∧ frames 2 1 1 1 <+: frames 2 1 1 2 :=
  frame_history 2 1 1 1 1 0 (le_refl 1)

/-- C7: the step is deterministic and frame-index independent: the loop
body ignores the frame index (equal results for any two indices), and
equal input states produce equal step results; the injection strengths
entering the step are the fixed per-call constants, not functions of
time or frame index. -/
theorem step_deterministic (N : ℕ) [NeZero N] (kd kp : ℕ) (i j : ℕ)
    (s t : SimState N) (h : s = t) :
    loopBody N kd kp i s = loopBody N kd kp j t
    ∧ makeStep N kd kp s = makeStep N kd kp t := by
  subst h
  exact ⟨rfl, rfl⟩

/-- Witness for C7 at two different frame indices and a concrete state. -/
theorem step_deterministic_witness :
    loopBody 2 1 1 0 (initState 2) = loopBody 2 1 1 7 (initState 2)
    ∧ makeStep 2 1 1 (initState 2) = makeStep 2 1 1 (initState 2) :=
  step_deterministic 2 1 1 0 7 (initState 2) (initState 2) rfl

/-- C8, counterexample: no reader of step results can recover the
solvers' convergence status, because the step result is unchanged when
the solvers' convergence flags change with their field iterates held
fixed — the step result (the per-step snapshot) carries no
convergence-failure flag. -/
theorem convergence_flag_not_surfaced_cex :
    ¬ ∃ rf : SimState 25 → Bool, SurfacesFlag 25 rf := by
  rintro ⟨rf, h⟩
  have hT := h (fun v => (diffuseS 25 1 v, true))
    (fun v => (projectJ 25 1 v, true)) (initState 25)
  have hF := h (fun v => (diffuseS 25 1 v, false))
    (fun v => (projectJ 25 1 v, false)) (initState 25)
  simp only [runFlags, Bool.or_self] at hT hF
  exact absurd (hT.symm.trans hF) (by simp)

/-- C8, amended: on non-convergence the step does not abort — it is a
total function of whatever iterate the solver returns — but no
convergence-failure flag reaches the step result: two runs whose solvers
agree on their field iterates produce identical step results regardless
of their convergence flags. -/
theorem convergence_flag_not_in_result (N : ℕ) [NeZero N]
    (dsf₁ dsf₂ psf₁ psf₂ : FlaggedSolver N)
    (hd : ∀ v, (dsf₁ v).1 = (dsf₂ v).1) (hp : ∀ v, (psf₁ v).1 = (psf₂ v).1)
    (s : SimState N) :
    makeStepFlag N dsf₁ psf₁ s = makeStepFlag N dsf₂ psf₂ s := by
  unfold makeStepFlag
  rw [funext (fun v => hd v), funext (fun v => hp v)]

/-- Witness for the amended C8 at concrete solvers differing only in
their flags. -/
theorem convergence_flag_not_in_result_witness :
    makeStepFlag 2 (fun v => (v, true)) (fun v => (v, true)) (initState 2)
      = makeStepFlag 2 (fun v => (v, false)) (fun v => (v, false))
          (initState 2) :=
  convergence_flag_not_in_result 2 _ _ _ _ (fun _ => rfl) (fun _ => rfl)
    (initState 2)

/-- C9, counterexample: with a caller-specified budget of zero steps the
budget is exhausted at the initial state, yet a further call to the step
function is not a no-op returning the last produced state: on the
program's 25-cell grid the step strictly changes the initial state (the
density sample nearest the source becomes 1/2).  The code has no Done
state and `make_step` has no no-op guard. -/
theorem step_after_budget_not_noop_cex :
    makeStep 25 1 1 (initState 25) ≠ initState 25 :=
  makeStep_ne_init 25 1 1

/-- C9, amended: the module-level loop performs exactly its budgeted
number of steps and then simply stops; there is no Done state: the frame
history after the budget has exactly `num_frames + 1` entries, every
loop iteration computes and appends a new state (the step function is
never a silent no-op — it changes the initial state), and no step occurs
after the budget only because nothing calls `make_step` again. -/
theorem budget_loop_stops (N : ℕ) [NeZero N] (kd kp : ℕ) (n : ℕ) :
    (frames N kd kp num_frames).length = num_frames + 1
    ∧ frames N kd kp (n + 1)
        = frames N kd kp n ++ [makeStep N kd kp (run N kd kp n)]
    ∧ makeStep N kd kp (initState N) ≠ initState N :=
  ⟨frames_length N kd kp num_frames, rfl, makeStep_ne_init N kd kp⟩

/-- Witness for the amended C9 on a 2-cell grid. -/
theorem budget_loop_stops_witness :
    (frames 2 1 1 num_frames).length = num_frames + 1
    ∧ frames 2 1 1 1 = frames 2 1 1 0 ++ [makeStep 2 1 1 (run 2 1 1 0)]
    ∧ makeStep 2 1 1 (initState 2) ≠ initState 2 :=
  budget_loop_stops 2 1 1 0

end FluidSim
